import Mathlib

/-!
Shallow embedding of the Pomodoro session core of `src/pompompom.py`:
the class `PomodoroModel` (cycle state machine and task rotation), the
timer callback `PomodoroView.update_timer`, the settings dialog handler
`apply_settings`, and the CSV / JSON persistence helpers
(`load_from_existing_csv`, `load_from_csv`, `save_to_csv`, `on_close`,
and the startup config load).

Python task-list indices may hold the sentinel `-1`, so they are embedded
as `Int`; Python sequence indexing (which accepts one round of negative
wraparound and raises `IndexError` otherwise) is embedded by `pyNorm`.
Python `int(...)` parsing of a string is embedded by `pyInt` (covering
optional leading minus followed by decimal digits; exotic accepted forms
such as surrounding whitespace or underscores are irrelevant here), and
`str.isdigit` by `pyIsDigit` on ASCII digits.  An operation that can
raise a Python exception returns `Option` (`none` = exception propagated
to the caller, which in the source leaves the model as the statements
already executed left it; every such operation here either mutates
nothing before the raising point or is only ever used on non-raising
inputs by the theorems below).
-/

namespace Pompompom

/-- A task row `[name, count]` of `PomodoroModel.task_list`. -/
structure Task where
  name : String
  count : Int
  deriving DecidableEq

/-- The mutable fields of `PomodoroModel` (see `PomodoroModel.__init__`). -/
structure Model where
  work_duration : Int
  short_break_duration : Int
  long_break_duration : Int
  current_state_index : Nat
  is_running : Bool
  remaining_time : Int
  current_task : String
  task_list : List Task
  current_task_index : Int
  deriving DecidableEq

/-- The fixed cycle template `PomodoroModel.pomodoro_cycle`; it is assigned
once in `__init__` and never written again, so it is embedded as a constant. -/
def pomodoro_cycle : List String :=
  ["Work", "Short Break", "Work", "Short Break",
   "Work", "Short Break", "Work", "Long Break"]

/-- The state built by `PomodoroModel.__init__`. -/
def initModel : Model where
  work_duration := 25 * 60
  short_break_duration := 5 * 60
  long_break_duration := 15 * 60
  current_state_index := 0
  is_running := false
  remaining_time := 25 * 60
  current_task := "No Task Selected"
  task_list := []
  current_task_index := -1

/-- Python list-index normalisation: `some n` with `n` the effective
non-negative index, `none` when the access would raise `IndexError`. -/
def pyNorm (len : Nat) (i : Int) : Option Nat :=
  if 0 ≤ i ∧ i < (len : Int) then some i.toNat
  else if -(len : Int) ≤ i ∧ i < 0 then some (i + len).toNat
  else none

/-- The trailing statements of the task-rotation block of
`get_next_state` (the advance-on-exhaustion check and the label
computation), shared by all three control paths through the block:
`tasks1` and `idx1` are the task list and pointer after the
sentinel/decrement step. -/
def focusTail (tasks1 : List Task) (idx1 : Int) : Option (List Task × Int × String) := do
  let n1 ← pyNorm tasks1.length idx1
  let t1 ← tasks1[n1]?
  let idx2 := if t1.count = 0 then (idx1 + 1) % (tasks1.length : Int) else idx1
  let n2 ← pyNorm tasks1.length idx2
  let t2 ← tasks1[n2]?
  pure (tasks1, idx2, if t2.count ≠ 0 then t2.name else "All Tasks Completed")

/-- The task-rotation block of `get_next_state` (the body of
`if self.task_list:` in the `"Work"` branch), acting on
`(task_list, current_task_index)` and yielding the new list, the new
index and the display label. -/
def focusStep (tasks : List Task) (idx : Int) : Option (List Task × Int × String) :=
  if idx = -1 then
    focusTail tasks (idx + 1)
  else do
    let n ← pyNorm tasks.length idx
    let t ← tasks[n]?
    if t.count ≠ 0 then
      focusTail (tasks.set n { t with count := t.count - 1 }) idx
    else
      focusTail tasks idx

/-- `PomodoroModel.get_next_state`: advance the cycle index modulo the
template length, load the new interval's duration, and on entering a
`"Work"` interval run the task rotation. -/
def get_next_state (m : Model) : Option Model :=
  let i := (m.current_state_index + 1) % pomodoro_cycle.length
  let state := pomodoro_cycle.getD i ""
  if state = "Work" then
    if m.task_list.isEmpty then
      some { m with current_state_index := i, remaining_time := m.work_duration,
                    current_task := "No Task Selected" }
    else do
      let (tasks1, idx2, label) ← focusStep m.task_list m.current_task_index
      pure { m with current_state_index := i, remaining_time := m.work_duration,
                    task_list := tasks1, current_task_index := idx2,
                    current_task := label }
  else if state = "Short Break" then
    some { m with current_state_index := i, remaining_time := m.short_break_duration,
                  current_task := "Short Break" }
  else if state = "Long Break" then
    some { m with current_state_index := i, remaining_time := m.long_break_duration,
                  current_task := "Long Break" }
  else
    some { m with current_state_index := i }

/-- `PomodoroModel.start` (setting `is_running` only when it was false is
the same as setting it unconditionally). -/
def start (m : Model) : Model :=
  { m with is_running := true }

/-- `PomodoroModel.reset_pomodoro`. -/
def reset_pomodoro (m : Model) : Model :=
  let lbl :=
    if m.task_list ≠ [] ∧ 0 ≤ m.current_task_index ∧
        m.current_task_index < (m.task_list.length : Int) then
      (m.task_list.getD m.current_task_index.toNat ⟨"", 0⟩).name
    else
      "No Task Selected"
  { m with current_state_index := 0, remaining_time := m.work_duration,
           is_running := false, current_task := lbl }

/-- `PomodoroModel.select_task`. -/
def select_task (m : Model) (k : Int) : Model :=
  if 0 ≤ k ∧ k < (m.task_list.length : Int) then
    reset_pomodoro { m with current_task_index := k }
  else m

/-- One firing of `PomodoroView.update_timer` restricted to its effect on
the model (the `update_display` calls and the rescheduling are UI-only). -/
def update_timer (m : Model) : Option Model :=
  if m.is_running ∧ 0 < m.remaining_time then
    some { m with remaining_time := m.remaining_time - 1 }
  else if m.is_running ∧ m.remaining_time = 0 then
    get_next_state m
  else
    some m

/-- `n` successive calls of `get_next_state`. -/
def advanceN (m : Model) : Nat → Option Model
  | 0 => some m
  | n + 1 => (advanceN m n).bind get_next_state

/-- `n` successive firings of `update_timer`. -/
def tickN (m : Model) : Nat → Option Model
  | 0 => some m
  | n + 1 => (tickN m n).bind update_timer

example : focusStep [⟨"A", 1⟩, ⟨"B", 2⟩] (-1) =
    some ([⟨"A", 1⟩, ⟨"B", 2⟩], 0, "A") := by decide

example : focusStep [⟨"A", 1⟩, ⟨"B", 2⟩] 0 =
    some ([⟨"A", 0⟩, ⟨"B", 2⟩], 1, "B") := by decide

/-- A non-empty list of decimal-digit characters (`str.isdigit` on the
character list of an ASCII string). -/
def digitsOnly (l : List Char) : Bool :=
  (!l.isEmpty) && l.all Char.isDigit

/-- Python `str.isdigit`. -/
def pyIsDigit (s : String) : Bool :=
  digitsOnly s.data

/-- Value of an unsigned decimal digit string (what Python `int` computes
on a digit string). -/
def parseDigits (l : List Char) : Nat :=
  l.foldl (fun a c => 10 * a + (c.toNat - 48)) 0

/-- Python `int(...)` on a character list: an optional leading minus
followed by at least one digit; `none` = `ValueError`. -/
def pyIntList (l : List Char) : Option Int :=
  if digitsOnly l then some ((parseDigits l : Nat) : Int)
  else if l.head? = some '-' ∧ digitsOnly l.tail then
    some (-((parseDigits l.tail : Nat) : Int))
  else none

/-- Python `int(...)` on a string. -/
def pyInt (s : String) : Option Int :=
  pyIntList s.data

/-- The decimal character of a digit value below ten. -/
def digitChar (d : Nat) : Char :=
  if d = 0 then '0' else if d = 1 then '1' else if d = 2 then '2'
  else if d = 3 then '3' else if d = 4 then '4' else if d = 5 then '5'
  else if d = 6 then '6' else if d = 7 then '7' else if d = 8 then '8'
  else '9'

/-- Least-significant-first decimal digits of `n`, with enough fuel. -/
def natReprAux : Nat → Nat → List Char
  | 0, _ => []
  | _ + 1, 0 => []
  | fuel + 1, n + 1 => digitChar ((n + 1) % 10) :: natReprAux fuel ((n + 1) / 10)

/-- Python `str` of a non-negative integer. -/
def natRepr (n : Nat) : String :=
  if n = 0 then "0" else String.mk (natReprAux n n).reverse

/-- Python `str` of an integer. -/
def pyStr (i : Int) : String :=
  if i < 0 then String.mk ('-' :: (natRepr i.natAbs).data) else natRepr i.toNat

/-- The `apply_settings` closure of `open_settings_window`, on the three
entry strings.  The three assignments run in order inside one `try`
block, so a `ValueError` while parsing one field leaves the fields
parsed earlier already overwritten and skips the rest (including the
`reset_pomodoro` call). -/
def apply_settings (m : Model) (w s l : String) : Model :=
  match pyInt w with
  | none => m
  | some wv =>
    let m1 := { m with work_duration := wv * 60 }
    match pyInt s with
    | none => m1
    | some sv =>
      let m2 := { m1 with short_break_duration := sv * 60 }
      match pyInt l with
      | none => m2
      | some lv => reset_pomodoro { m2 with long_break_duration := lv * 60 }

/-- One CSV body row as checked by `load_from_existing_csv`: exactly two
cells and a digit-string count (`row[1].isdigit()`); `none` = the
`ValueError` raised there.  An empty name passes this check. -/
def parseRow (row : List String) : Option Task :=
  match row with
  | [name, cnt] =>
    if pyIsDigit cnt then some ⟨name, ((parseDigits cnt.data : Nat) : Int)⟩ else none
  | _ => none

/-- The row loop of `load_from_existing_csv`: the first bad row aborts
the whole load (the `tasks` local list is discarded). -/
def parseRows : List (List String) → Option (List Task)
  | [] => some []
  | r :: rs => do
    let t ← parseRow r
    let ts ← parseRows rs
    pure (t :: ts)

/-- `PomodoroView.load_from_existing_csv` on the parsed CSV rows of the
file (header row first; `next(reader)` on an empty file raises).  The
model is only assigned after every row parsed, so `none` leaves the
caller's model untouched. -/
def load_from_existing_csv (m : Model) (file : List (List String)) : Option Model :=
  match file with
  | [] => none
  | _hd :: body =>
    match parseRows body with
    | none => none
    | some ts =>
      let m1 := { m with task_list := ts }
      let m2 := if ts.isEmpty then reset_pomodoro m1 else select_task m1 0
      some (start m2)

/-- `PomodoroView.load_from_csv`: exceptions from
`load_from_existing_csv` are caught and reported, leaving the model
exactly as before the attempt. -/
def load_from_csv (m : Model) (file : List (List String)) : Model :=
  (load_from_existing_csv m file).getD m

/-- The settings record written to `config.json` (three minute counts
serialized as strings). -/
structure Config where
  work : String
  short : String
  long : String
  deriving DecidableEq

/-- The config record written by `on_close`: each duration is divided by
60 with Python floor division before serialization. -/
def save_config (m : Model) : Config where
  work := pyStr (Int.fdiv m.work_duration 60)
  short := pyStr (Int.fdiv m.short_break_duration 60)
  long := pyStr (Int.fdiv m.long_break_duration 60)

/-- The startup config load in `__main__`: each field is parsed with
`int` and multiplied by 60, assignments running in order inside one
`try` block, then `reset_pomodoro`. -/
def load_config (m : Model) (c : Config) : Model :=
  match pyInt c.work with
  | none => m
  | some wv =>
    let m1 := { m with work_duration := wv * 60 }
    match pyInt c.short with
    | none => m1
    | some sv =>
      let m2 := { m1 with short_break_duration := sv * 60 }
      match pyInt c.long with
      | none => m2
      | some lv => reset_pomodoro { m2 with long_break_duration := lv * 60 }

/-- The `tasks.csv` rows written by `on_close`: the header row followed
by one `[name, str(count)]` row per task. -/
def save_tasks_file (ts : List Task) : List (List String) :=
  ["Task Name", "Pomodoros"] :: ts.map fun t => [t.name, pyStr t.count]

/-- One spreadsheet row of the collection loop in
`PomodoroView.save_to_csv`: a row without exactly two cells raises; a row
with an empty cell is silently skipped (`some none`); otherwise the count
cell is parsed with `int`, whose `ValueError` also escapes (`none`). -/
def collectRow (row : List String) : Option (Option Task) :=
  match row with
  | [c0, c1] =>
    if c0.length = 0 ∨ c1.length = 0 then some none
    else
      match pyInt c1 with
      | none => none
      | some v => some (some ⟨c0, v⟩)
  | _ => none

/-- The whole collection loop of `save_to_csv`: an escaping exception in
any row aborts the save before the model is touched. -/
def collectRows : List (List String) → Option (List Task)
  | [] => some []
  | r :: rs => do
    let t? ← collectRow r
    let ts ← collectRows rs
    pure (match t? with | none => ts | some t => t :: ts)

/-- `PomodoroView.save_to_csv` restricted to its effect on the model.
The spreadsheet is passed as its rows of cell strings; the two external
outcomes are whether the save dialog returned a path and whether the
file write succeeded.  The collected tasks replace `task_list` before
either outcome is known; the out-of-range-pointer repair
(`select_task(0)` at the source's line 415) and the `start()` run only
when a path was chosen and the write succeeded.  `none` = a `ValueError`
escaped during collection, before the model was touched. -/
def save_to_csv (m : Model) (grid : List (List String))
    (dialog_path : Bool) (write_ok : Bool) : Option Model :=
  match collectRows grid with
  | none => none
  | some tasks =>
    let m1 := { m with task_list := tasks }
    if tasks.isEmpty then some m1
    else if dialog_path then
      if write_ok then
        some (start (if (tasks.length : Int) ≤ m1.current_task_index then
          select_task m1 0 else m1))
      else some m1
    else some m1

/-- The pointer-validity invariant of the claim: whenever
`current_task_index` is not the unset sentinel `-1`, it is a valid index
of `task_list`. -/
def Inv (m : Model) : Prop :=
  m.current_task_index ≠ -1 →
    0 ≤ m.current_task_index ∧ m.current_task_index < (m.task_list.length : Int)

instance (m : Model) : Decidable (Inv m) := by
  unfold Inv; infer_instance

/-- The configured duration `get_next_state` loads for cycle position
`p` of model `m` (the final branch, never reached for `p < 8`, leaves
`remaining_time` alone). -/
def duration_for (m : Model) (p : Nat) : Int :=
  if pomodoro_cycle.getD p "" = "Work" then m.work_duration
  else if pomodoro_cycle.getD p "" = "Short Break" then m.short_break_duration
  else if pomodoro_cycle.getD p "" = "Long Break" then m.long_break_duration
  else m.remaining_time

example : pyInt "30" = some 30 := by decide
example : pyInt "abc" = none := by decide
example : pyInt "-5" = some (-5) := by decide
example : pyStr (-17) = "-17" := by decide
example : pyStr 250 = "250" := by decide

/-! ### Helper lemmas -/

/-- Default task used with `List.getD`. -/
def dTask : Task := ⟨"", 0⟩

theorem pyNorm_of_valid {len : Nat} {i : Int} (h0 : 0 ≤ i) (h1 : i < (len : Int)) :
    pyNorm len i = some i.toNat := by
  unfold pyNorm
  rw [if_pos ⟨h0, h1⟩]

theorem getD_eq_getElem {l : List Task} {n : Nat} (h : n < l.length) (d : Task) :
    l.getD n d = l[n] := by
  rw [List.getD_eq_getElem?_getD, List.getElem?_eq_getElem h, Option.getD_some]

/-- What `focusTail` computes on a valid pointer (proved in
`focusTail_eq`). -/
def finishStep (tasks1 : List Task) (idx1 : Int) : List Task × Int × String :=
  let t1 := tasks1.getD idx1.toNat dTask
  let idx2 := if t1.count = 0 then (idx1 + 1) % (tasks1.length : Int) else idx1
  let t2 := tasks1.getD idx2.toNat dTask
  (tasks1, idx2, if t2.count ≠ 0 then t2.name else "All Tasks Completed")

/-- What `focusStep` computes when its index argument is the unset
sentinel or a valid index (proved in `focusStep_eq`); stated with total
operations so that the per-claim reasoning stays out of the `Option`
monad. -/
def focusStepTotal (tasks : List Task) (idx : Int) : List Task × Int × String :=
  if idx = -1 then finishStep tasks 0
  else
    let t := tasks.getD idx.toNat dTask
    if t.count ≠ 0 then
      finishStep (tasks.set idx.toNat { t with count := t.count - 1 }) idx
    else finishStep tasks idx

theorem emod_bounds {a b : Int} (hb : 0 < b) : 0 ≤ a % b ∧ a % b < b :=
  ⟨Int.emod_nonneg a (ne_of_gt hb), Int.emod_lt_of_pos a hb⟩

theorem focusTail_eq (tasks1 : List Task) (idx1 : Int)
    (h0 : 0 ≤ idx1) (h1 : idx1 < (tasks1.length : Int)) :
    focusTail tasks1 idx1 = some (finishStep tasks1 idx1) := by
  have hn : idx1.toNat < tasks1.length := by omega
  simp only [focusTail, finishStep, Option.pure_def, Option.bind_eq_bind]
  rw [pyNorm_of_valid h0 h1]
  simp only [Option.some_bind]
  rw [List.getElem?_eq_getElem hn]
  simp only [Option.some_bind]
  rw [getD_eq_getElem hn dTask]
  by_cases hc : (tasks1[idx1.toNat] : Task).count = 0
  · simp only [if_pos hc]
    have hlenI : (0 : Int) < (tasks1.length : Int) := by omega
    have hb := emod_bounds (a := idx1 + 1) hlenI
    have hn2 : ((idx1 + 1) % (tasks1.length : Int)).toNat < tasks1.length := by omega
    rw [pyNorm_of_valid hb.1 hb.2]
    simp only [Option.some_bind]
    rw [List.getElem?_eq_getElem hn2]
    simp only [Option.some_bind]
    rw [getD_eq_getElem hn2 dTask]
  · simp only [if_neg hc]
    rw [pyNorm_of_valid h0 h1]
    simp only [Option.some_bind]
    rw [List.getElem?_eq_getElem hn]
    simp only [Option.some_bind]
    rw [getD_eq_getElem hn dTask]

theorem focusStep_eq (tasks : List Task) (idx : Int) (hne : tasks ≠ [])
    (hidx : idx = -1 ∨ 0 ≤ idx ∧ idx < (tasks.length : Int)) :
    focusStep tasks idx = some (focusStepTotal tasks idx) := by
  have hlen : 0 < tasks.length := List.length_pos.mpr hne
  have hlenI : (0 : Int) < (tasks.length : Int) := by omega
  rcases hidx with rfl | ⟨h0, h1⟩
  · simp only [focusStep, focusStepTotal, if_pos rfl]
    norm_num
    exact focusTail_eq tasks 0 le_rfl hlenI
  · have hnegOne : idx ≠ -1 := by omega
    have hn : idx.toNat < tasks.length := by omega
    simp only [focusStep, focusStepTotal, if_neg hnegOne, Option.pure_def,
      Option.bind_eq_bind]
    rw [pyNorm_of_valid h0 h1]
    simp only [Option.some_bind]
    rw [List.getElem?_eq_getElem hn]
    simp only [Option.some_bind]
    rw [getD_eq_getElem hn dTask]
    by_cases hc : (tasks[idx.toNat] : Task).count = 0
    · simp only [ne_eq, hc, not_true_eq_false, ite_false]
      exact focusTail_eq tasks idx h0 h1
    · simp only [ne_eq, hc, not_false_eq_true, ite_true]
      exact focusTail_eq _ idx h0 (by rw [List.length_set]; exact h1)

theorem duration_for_work {m : Model} {p : Nat}
    (h : pomodoro_cycle.getD p "" = "Work") :
    duration_for m p = m.work_duration := by
  simp only [duration_for, h]
  simp

theorem duration_for_short {m : Model} {p : Nat}
    (h : pomodoro_cycle.getD p "" = "Short Break") :
    duration_for m p = m.short_break_duration := by
  simp only [duration_for, h]
  simp

theorem duration_for_long {m : Model} {p : Nat}
    (h : pomodoro_cycle.getD p "" = "Long Break") :
    duration_for m p = m.long_break_duration := by
  simp only [duration_for, h]
  simp

theorem duration_for_other {m : Model} {p : Nat}
    (h1 : pomodoro_cycle.getD p "" ≠ "Work")
    (h2 : pomodoro_cycle.getD p "" ≠ "Short Break")
    (h3 : pomodoro_cycle.getD p "" ≠ "Long Break") :
    duration_for m p = m.remaining_time := by
  simp only [duration_for]
  rw [if_neg h1, if_neg h2, if_neg h3]

/-- Case analysis of one successful `get_next_state` step: the cycle
index always advances by one modulo 8, the new interval's configured
duration is loaded, the durations and the running flag are untouched,
non-`"Work"` positions leave the task state alone, and `"Work"`
positions either report `"No Task Selected"` (empty list) or run
`focusStep`. -/
theorem get_next_state_cases {m m' : Model} (h : get_next_state m = some m') :
    m'.current_state_index = (m.current_state_index + 1) % 8 ∧
    m'.remaining_time = duration_for m ((m.current_state_index + 1) % 8) ∧
    m'.work_duration = m.work_duration ∧
    m'.short_break_duration = m.short_break_duration ∧
    m'.long_break_duration = m.long_break_duration ∧
    m'.is_running = m.is_running ∧
    (pomodoro_cycle.getD ((m.current_state_index + 1) % 8) "" ≠ "Work" →
      m'.task_list = m.task_list ∧ m'.current_task_index = m.current_task_index) ∧
    (pomodoro_cycle.getD ((m.current_state_index + 1) % 8) "" = "Work" →
      (m.task_list = [] ∧ m'.task_list = [] ∧
        m'.current_task_index = m.current_task_index ∧
        m'.current_task = "No Task Selected") ∨
      (m.task_list ≠ [] ∧
        ∃ st, focusStep m.task_list m.current_task_index = some st ∧
          m'.task_list = st.1 ∧ m'.current_task_index = st.2.1 ∧
          m'.current_task = st.2.2)) := by
  have hlen : pomodoro_cycle.length = 8 := rfl
  simp only [get_next_state] at h
  rw [hlen] at h
  set s := pomodoro_cycle.getD ((m.current_state_index + 1) % 8) "" with hs
  by_cases hW : s = "Work"
  · rw [if_pos hW] at h
    by_cases hE : m.task_list.isEmpty
    · rw [if_pos hE] at h
      injection h with h
      subst h
      have hnil : m.task_list = [] := by simpa using hE
      exact ⟨rfl, (duration_for_work (hs.symm.trans hW)).symm, rfl, rfl, rfl, rfl,
        fun hn => absurd (hs.symm.trans hW) hn,
        fun _ => Or.inl ⟨hnil, hnil, rfl, rfl⟩⟩
    · rw [if_neg hE] at h
      simp only [Option.pure_def, Option.bind_eq_bind] at h
      cases hfs : focusStep m.task_list m.current_task_index with
      | none => rw [hfs] at h; simp at h
      | some st =>
        obtain ⟨t1, i2, lb⟩ := st
        rw [hfs] at h
        simp only [Option.some_bind] at h
        injection h with h
        subst h
        exact ⟨rfl, (duration_for_work (hs.symm.trans hW)).symm, rfl, rfl, rfl, rfl,
          fun hn => absurd (hs.symm.trans hW) hn,
          fun _ => Or.inr ⟨by simpa using hE,
            Exists.intro (t1, i2, lb) ⟨rfl, rfl, rfl, rfl⟩⟩⟩
  · rw [if_neg hW] at h
    have hW' : pomodoro_cycle.getD ((m.current_state_index + 1) % 8) "" ≠ "Work" :=
      fun hx => hW (hs.trans hx)
    by_cases hS : s = "Short Break"
    · rw [if_pos hS] at h
      injection h with h
      subst h
      exact ⟨rfl, (duration_for_short (hs.symm.trans hS)).symm, rfl, rfl, rfl, rfl,
        fun _ => ⟨rfl, rfl⟩, fun hw => absurd hw hW'⟩
    · rw [if_neg hS] at h
      by_cases hL : s = "Long Break"
      · rw [if_pos hL] at h
        injection h with h
        subst h
        exact ⟨rfl, (duration_for_long (hs.symm.trans hL)).symm, rfl, rfl, rfl, rfl,
          fun _ => ⟨rfl, rfl⟩, fun hw => absurd hw hW'⟩
      · rw [if_neg hL] at h
        injection h with h
        subst h
        exact ⟨rfl,
          (duration_for_other hW' (fun hx => hS (hs.trans hx))
            (fun hx => hL (hs.trans hx))).symm,
          rfl, rfl, rfl, rfl, fun _ => ⟨rfl, rfl⟩, fun hw => absurd hw hW'⟩

theorem finishStep_fst (tasks1 : List Task) (idx1 : Int) :
    (finishStep tasks1 idx1).1 = tasks1 := rfl

theorem finishStep_idx (tasks1 : List Task) (idx1 : Int) :
    (finishStep tasks1 idx1).2.1 =
      if (tasks1.getD idx1.toNat dTask).count = 0 then
        (idx1 + 1) % (tasks1.length : Int)
      else idx1 := rfl

theorem finishStep_label (tasks1 : List Task) (idx1 : Int) :
    (finishStep tasks1 idx1).2.2 =
      if (tasks1.getD (finishStep tasks1 idx1).2.1.toNat dTask).count ≠ 0 then
        (tasks1.getD (finishStep tasks1 idx1).2.1.toNat dTask).name
      else "All Tasks Completed" := rfl

theorem finishStep_idx_bounds (tasks1 : List Task) (idx1 : Int)
    (h0 : 0 ≤ idx1) (h1 : idx1 < (tasks1.length : Int)) :
    0 ≤ (finishStep tasks1 idx1).2.1 ∧
      (finishStep tasks1 idx1).2.1 < (tasks1.length : Int) := by
  have hlenI : (0 : Int) < (tasks1.length : Int) := by omega
  rw [finishStep_idx]
  split
  · exact emod_bounds hlenI
  · exact ⟨h0, h1⟩

theorem focusStepTotal_unset (tasks : List Task) :
    focusStepTotal tasks (-1) = finishStep tasks 0 := by
  simp [focusStepTotal]

theorem focusStepTotal_no_dec (tasks : List Task) {idx : Int} (h : idx ≠ -1)
    (hc : (tasks.getD idx.toNat dTask).count = 0) :
    focusStepTotal tasks idx = finishStep tasks idx := by
  simp only [focusStepTotal]
  rw [if_neg h, if_neg (fun hx => hx hc)]

theorem focusStepTotal_dec (tasks : List Task) {idx : Int} (h : idx ≠ -1)
    (hc : (tasks.getD idx.toNat dTask).count ≠ 0) :
    focusStepTotal tasks idx =
      finishStep
        (tasks.set idx.toNat
          { tasks.getD idx.toNat dTask with
            count := (tasks.getD idx.toNat dTask).count - 1 }) idx := by
  simp only [focusStepTotal]
  rw [if_neg h, if_pos hc]

theorem focusStepTotal_bounds (tasks : List Task) (idx : Int) (hne : tasks ≠ [])
    (hidx : idx = -1 ∨ 0 ≤ idx ∧ idx < (tasks.length : Int)) :
    (focusStepTotal tasks idx).1.length = tasks.length ∧
    0 ≤ (focusStepTotal tasks idx).2.1 ∧
    (focusStepTotal tasks idx).2.1 < (tasks.length : Int) := by
  have hlen : 0 < tasks.length := List.length_pos.mpr hne
  have hlenI : (0 : Int) < (tasks.length : Int) := by omega
  rcases hidx with rfl | ⟨h0, h1⟩
  · rw [focusStepTotal_unset, finishStep_fst]
    exact ⟨rfl, finishStep_idx_bounds tasks 0 le_rfl hlenI⟩
  · have hm1 : idx ≠ -1 := by omega
    by_cases hc : (tasks.getD idx.toNat dTask).count = 0
    · rw [focusStepTotal_no_dec tasks hm1 hc, finishStep_fst]
      exact ⟨rfl, finishStep_idx_bounds tasks idx h0 h1⟩
    · rw [focusStepTotal_dec tasks hm1 hc, finishStep_fst]
      have hl : (tasks.set idx.toNat
          { tasks.getD idx.toNat dTask with
            count := (tasks.getD idx.toNat dTask).count - 1 }).length = tasks.length :=
        List.length_set tasks _ _
      refine ⟨hl, ?_⟩
      have := finishStep_idx_bounds
        (tasks.set idx.toNat
          { tasks.getD idx.toNat dTask with
            count := (tasks.getD idx.toNat dTask).count - 1 }) idx h0
        (by rw [hl]; exact h1)
      rw [hl] at this
      exact this

/-- Replacing a task's count keeps every name in the list. -/
theorem names_of_set {tasks : List Task} {n : Nat} (hn : n < tasks.length) (c : Int)
    (hname : ∀ t ∈ tasks, t.name ≠ "All Tasks Completed") :
    ∀ t ∈ tasks.set n { tasks.getD n dTask with count := c },
      t.name ≠ "All Tasks Completed" := by
  intro t ht
  rw [List.mem_iff_getElem] at ht
  obtain ⟨j, hj, hjt⟩ := ht
  rw [List.getElem_set] at hjt
  by_cases hnj : n = j
  · rw [if_pos hnj] at hjt
    rw [← hjt]
    rw [getD_eq_getElem hn dTask]
    exact hname tasks[n] (List.getElem_mem hn)
  · rw [if_neg hnj] at hjt
    rw [← hjt]
    have hj' : j < tasks.length := by
      rw [List.length_set] at hj; exact hj
    exact hname tasks[j] (List.getElem_mem hj')

/-- The completed label appears after `finishStep` exactly when the task
finally pointed to has count 0 (assuming no task is literally named like
the completed label). -/
theorem finishStep_label_iff (tasks1 : List Task) (idx1 : Int)
    (h0 : 0 ≤ idx1) (h1 : idx1 < (tasks1.length : Int))
    (hname : ∀ t ∈ tasks1, t.name ≠ "All Tasks Completed") :
    ((finishStep tasks1 idx1).2.2 = "All Tasks Completed" ↔
      ((finishStep tasks1 idx1).1.getD (finishStep tasks1 idx1).2.1.toNat
        dTask).count = 0) := by
  have hb := finishStep_idx_bounds tasks1 idx1 h0 h1
  have hn2 : (finishStep tasks1 idx1).2.1.toNat < tasks1.length := by omega
  rw [finishStep_fst, finishStep_label]
  by_cases hc : (tasks1.getD (finishStep tasks1 idx1).2.1.toNat dTask).count = 0
  · rw [if_neg (by simpa using hc)]
    exact ⟨fun _ => hc, fun _ => rfl⟩
  · rw [if_pos (by simpa using hc)]
    constructor
    · intro hl
      exfalso
      refine hname (tasks1.getD (finishStep tasks1 idx1).2.1.toNat dTask) ?_ hl
      rw [getD_eq_getElem hn2 dTask]
      exact List.getElem_mem hn2
    · intro hz
      exact absurd hz hc

/-! ### Decimal serialization round trip -/

theorem parseDigits_append (l : List Char) (c : Char) :
    parseDigits (l ++ [c]) = 10 * parseDigits l + (c.toNat - 48) := by
  unfold parseDigits
  rw [List.foldl_append]
  rfl

theorem digitChar_spec (d : Nat) (h : d < 10) :
    (digitChar d).toNat - 48 = d ∧ (digitChar d).isDigit = true := by
  interval_cases d <;> exact ⟨by decide, by decide⟩

theorem natReprAux_all_digits :
    ∀ fuel n, ∀ c ∈ natReprAux fuel n, c.isDigit = true := by
  intro fuel
  induction fuel with
  | zero => intro n c hc; simp [natReprAux] at hc
  | succ f ih =>
    intro n c hc
    match n with
    | 0 => simp [natReprAux] at hc
    | m + 1 =>
      rw [natReprAux] at hc
      rcases List.mem_cons.mp hc with rfl | hc'
      · exact (digitChar_spec _ (Nat.mod_lt _ (by norm_num))).2
      · exact ih _ c hc'

theorem natReprAux_ne_nil {fuel n : Nat} (h0 : 0 < n) (hf : n ≤ fuel) :
    natReprAux fuel n ≠ [] := by
  match fuel, n with
  | 0, n => omega
  | f + 1, 0 => omega
  | f + 1, m + 1 => rw [natReprAux]; simp

theorem parse_natReprAux :
    ∀ fuel n, n ≤ fuel → parseDigits (natReprAux fuel n).reverse = n := by
  intro fuel
  induction fuel with
  | zero => intro n hn; interval_cases n; rfl
  | succ f ih =>
    intro n hn
    match n with
    | 0 => rfl
    | m + 1 =>
      rw [natReprAux, List.reverse_cons, parseDigits_append]
      have hdiv : (m + 1) / 10 ≤ f := by
        have h1 : (m + 1) / 10 < m + 1 := Nat.div_lt_self (Nat.succ_pos m) (by norm_num)
        omega
      rw [ih _ hdiv, (digitChar_spec ((m + 1) % 10) (Nat.mod_lt _ (by norm_num))).1]
      omega

theorem natRepr_digitsOnly (n : Nat) : digitsOnly (natRepr n).data = true := by
  unfold natRepr
  split
  · decide
  · rename_i hn
    show digitsOnly (natReprAux n n).reverse = true
    unfold digitsOnly
    rw [Bool.and_eq_true, List.all_eq_true]
    constructor
    · have := natReprAux_ne_nil (Nat.pos_of_ne_zero hn) (le_refl n)
      simp [List.isEmpty_iff, this]
    · intro c hc
      exact natReprAux_all_digits n n c (List.mem_reverse.mp hc)

theorem parse_natRepr (n : Nat) : parseDigits (natRepr n).data = n := by
  unfold natRepr
  split
  · rename_i h; subst h; rfl
  · exact parse_natReprAux n n le_rfl

theorem pyInt_natRepr (n : Nat) : pyInt (natRepr n) = some (n : Int) := by
  unfold pyInt pyIntList
  rw [if_pos (natRepr_digitsOnly n), parse_natRepr]

theorem pyInt_pyStr (i : Int) : pyInt (pyStr i) = some i := by
  by_cases h : i < 0
  · unfold pyStr
    rw [if_pos h]
    show pyIntList ('-' :: (natRepr i.natAbs).data) = some i
    have hminus : ('-' : Char).isDigit = false := by decide
    have hdo : digitsOnly ('-' :: (natRepr i.natAbs).data) = false := by
      simp [digitsOnly, List.all_cons, hminus]
    unfold pyIntList
    rw [if_neg (by simp [hdo])]
    rw [if_pos ⟨rfl, natRepr_digitsOnly i.natAbs⟩]
    rw [show ('-' :: (natRepr i.natAbs).data).tail = (natRepr i.natAbs).data from rfl]
    rw [parse_natRepr]
    have : ((i.natAbs : Nat) : Int) = -i := by omega
    rw [this, neg_neg]
  · unfold pyStr
    rw [if_neg h]
    rw [pyInt_natRepr]
    have : ((i.toNat : Nat) : Int) = i := Int.toNat_of_nonneg (by omega)
    rw [this]

theorem pyIsDigit_pyStr {i : Int} (h : 0 ≤ i) : pyIsDigit (pyStr i) = true := by
  unfold pyStr
  rw [if_neg (by omega)]
  exact natRepr_digitsOnly i.toNat

/-! ### Task-list load/save lemmas and invariant preservation -/

theorem parseRows_eq_none {rows : List (List String)} {r : List String}
    (hr : r ∈ rows) (hbad : parseRow r = none) : parseRows rows = none := by
  induction rows with
  | nil => cases hr
  | cons a rs ih =>
    simp only [parseRows, Option.pure_def, Option.bind_eq_bind]
    rcases List.mem_cons.mp hr with rfl | hr'
    · rw [hbad]
      rfl
    · rw [ih hr']
      cases parseRow a <;> rfl

theorem parseRow_save (t : Task) (h : 0 ≤ t.count) :
    parseRow [t.name, pyStr t.count] = some t := by
  show (if pyIsDigit (pyStr t.count) = true then
    some (⟨t.name, ((parseDigits (pyStr t.count).data : Nat) : Int)⟩ : Task)
    else none) = some t
  rw [if_pos (pyIsDigit_pyStr h)]
  have hp : parseDigits (pyStr t.count).data = t.count.toNat := by
    unfold pyStr
    rw [if_neg (by omega)]
    exact parse_natRepr t.count.toNat
  rw [hp, Int.toNat_of_nonneg h]

theorem parseRows_save (ts : List Task) (h : ∀ t ∈ ts, 0 ≤ t.count) :
    parseRows (ts.map fun t => [t.name, pyStr t.count]) = some ts := by
  induction ts with
  | nil => rfl
  | cons t ts ih =>
    rw [List.map_cons]
    simp only [parseRows, Option.pure_def, Option.bind_eq_bind]
    rw [parseRow_save t (h t (List.mem_cons_self t ts))]
    rw [ih fun x hx => h x (List.mem_cons_of_mem _ hx)]
    rfl

/-- Unfolding of `load_from_existing_csv` on a non-empty file. -/
theorem load_cons_eq (m : Model) (hd : List String) (body : List (List String)) :
    load_from_existing_csv m (hd :: body) =
      match parseRows body with
      | none => none
      | some ts =>
        some (start (if ts.isEmpty then reset_pomodoro { m with task_list := ts }
          else select_task { m with task_list := ts } 0)) := rfl

theorem Inv_reset (m : Model) (h : Inv m) : Inv (reset_pomodoro m) := h

theorem Inv_select (m : Model) (k : Int) (h : Inv m) : Inv (select_task m k) := by
  unfold select_task
  split
  · rename_i hk
    intro _
    exact hk
  · exact h

theorem Inv_get_next_state {m m' : Model} (hI : Inv m)
    (h : get_next_state m = some m') : Inv m' := by
  obtain ⟨-, -, -, -, -, -, hnw, hw⟩ := get_next_state_cases h
  by_cases hW : pomodoro_cycle.getD ((m.current_state_index + 1) % 8) "" = "Work"
  · rcases hw hW with ⟨hnil, _hnil', hidx, -⟩ | ⟨hne, st, hfs, hl, hi, -⟩
    · intro hset
      exfalso
      rw [hidx] at hset
      have h2 := hI hset
      rw [hnil] at h2
      simp at h2
      omega
    · have hidx : m.current_task_index = -1 ∨
          0 ≤ m.current_task_index ∧
            m.current_task_index < (m.task_list.length : Int) := by
        by_cases hx : m.current_task_index = -1
        · exact Or.inl hx
        · exact Or.inr (hI hx)
      rw [focusStep_eq m.task_list m.current_task_index hne hidx] at hfs
      injection hfs with hfs
      obtain ⟨hlen, hb0, hb1⟩ :=
        focusStepTotal_bounds m.task_list m.current_task_index hne hidx
      intro _
      rw [hi, hl, ← hfs]
      exact ⟨hb0, by rw [hlen]; exact hb1⟩
  · obtain ⟨hl, hi⟩ := hnw hW
    intro h'
    rw [hi] at h' ⊢
    rw [hl]
    exact hI h'

/-! ### Claims -/

/-- C1 counterexample: `apply_settings` with a parseable work value and a
non-numeric short-break value has already overwritten the work duration
when the `ValueError` fires, so the three durations do not all remain at
their prior values; moreover the non-positive numeric input `"0"` is
accepted rather than rejected. -/
theorem apply_settings_partial_cex :
    (apply_settings initModel "30" "abc" "15").work_duration = 1800 ∧
    initModel.work_duration = 1500 ∧
    (apply_settings initModel "0" "5" "15").work_duration = 0 := by
  decide

/-- C1 amended: `apply_settings` parses and applies the three durations in
order inside one `try` block; a non-numeric short-break value leaves the
short-break and long-break durations (and cycle position and countdown)
at their prior values, but the work duration has already been replaced by
the parsed value times 60 when its input parsed, and no positivity check
is performed on any input. -/
theorem apply_settings_nonnumeric_short (m : Model) (w s l : String)
    (hs : pyInt s = none) :
    (apply_settings m w s l).short_break_duration = m.short_break_duration ∧
    (apply_settings m w s l).long_break_duration = m.long_break_duration ∧
    (apply_settings m w s l).current_state_index = m.current_state_index ∧
    (apply_settings m w s l).remaining_time = m.remaining_time ∧
    (pyInt w = none → apply_settings m w s l = m) ∧
    (∀ wv, pyInt w = some wv →
      (apply_settings m w s l).work_duration = wv * 60) := by
  unfold apply_settings
  cases hw : pyInt w with
  | none =>
    exact ⟨rfl, rfl, rfl, rfl, fun _ => rfl, fun wv hv => Option.noConfusion hv⟩
  | some wv =>
    rw [hs]
    exact ⟨rfl, rfl, rfl, rfl, fun hn => Option.noConfusion hn,
      fun wv' hv => by injection hv with hv; subst hv; rfl⟩

/-- C1 witness for the amended theorem. -/
theorem apply_settings_nonnumeric_short_witness :
    (apply_settings initModel "30" "abc" "15").short_break_duration =
      initModel.short_break_duration ∧
    (apply_settings initModel "30" "abc" "15").long_break_duration =
      initModel.long_break_duration ∧
    (apply_settings initModel "30" "abc" "15").work_duration = 30 * 60 := by
  have h := apply_settings_nonnumeric_short initModel "30" "abc" "15" (by decide)
  exact ⟨h.1, h.2.1, h.2.2.2.2.2 30 (by decide)⟩

/-- C2 counterexample: on the list `[("A",1), ("B",0), ("C",5)]` with the
pointer at task 0, a focus entry decrements A to 0, advances one slot to
B (also at 0) and shows `"All Tasks Completed"` although C still has
count 5 — the label is not equivalent to every task being at 0. -/
theorem focus_label_completed_cex :
    (get_next_state
      { initModel with task_list := [⟨"A", 1⟩, ⟨"B", 0⟩, ⟨"C", 5⟩],
                       current_task_index := 0, current_state_index := 7 }).map
      (fun m => (m.current_task, m.task_list)) =
      some ("All Tasks Completed", [⟨"A", 0⟩, ⟨"B", 0⟩, ⟨"C", 5⟩]) ∧
    (⟨"C", 5⟩ : Task) ∈ [(⟨"A", 0⟩ : Task), ⟨"B", 0⟩, ⟨"C", 5⟩] ∧
    (0 : Int) < 5 := by
  decide

/-- C2 amended: after a focus entry on a non-empty list (pointer unset or
valid, no task literally named like the completed label), the label is
`"All Tasks Completed"` if and only if the task at the updated pointer
has count 0; in particular if every task has count 0 the label is shown,
but the converse direction of the claim fails because the pointer only
advances one position (see the counterexample). -/
theorem focus_label_completed_iff (tasks : List Task) (idx : Int)
    (hne : tasks ≠ [])
    (hidx : idx = -1 ∨ 0 ≤ idx ∧ idx < (tasks.length : Int))
    (hname : ∀ t ∈ tasks, t.name ≠ "All Tasks Completed") :
    ∃ st, focusStep tasks idx = some st ∧
      (st.2.2 = "All Tasks Completed" ↔
        (st.1.getD st.2.1.toNat dTask).count = 0) ∧
      ((∀ t ∈ tasks, t.count = 0) → st.2.2 = "All Tasks Completed") := by
  have hlen : 0 < tasks.length := List.length_pos.mpr hne
  have hlenI : (0 : Int) < (tasks.length : Int) := by omega
  refine ⟨focusStepTotal tasks idx, focusStep_eq tasks idx hne hidx, ?_, ?_⟩
  · rcases hidx with rfl | ⟨h0, h1⟩
    · rw [focusStepTotal_unset]
      exact finishStep_label_iff tasks 0 le_rfl hlenI hname
    · have hm1 : idx ≠ -1 := by omega
      have hn : idx.toNat < tasks.length := by omega
      by_cases hc : (tasks.getD idx.toNat dTask).count = 0
      · rw [focusStepTotal_no_dec tasks hm1 hc]
        exact finishStep_label_iff tasks idx h0 h1 hname
      · rw [focusStepTotal_dec tasks hm1 hc]
        exact finishStep_label_iff _ idx h0
          (by rw [List.length_set]; exact h1)
          (names_of_set hn _ hname)
  · intro hz
    rcases hidx with rfl | ⟨h0, h1⟩
    · rw [focusStepTotal_unset]
      apply (finishStep_label_iff tasks 0 le_rfl hlenI hname).mpr
      rw [finishStep_fst]
      have hb := finishStep_idx_bounds tasks 0 le_rfl hlenI
      have hn2 : (finishStep tasks 0).2.1.toNat < tasks.length := by omega
      rw [getD_eq_getElem hn2 dTask]
      exact hz _ (List.getElem_mem hn2)
    · have hm1 : idx ≠ -1 := by omega
      have hn : idx.toNat < tasks.length := by omega
      have hc : (tasks.getD idx.toNat dTask).count = 0 := by
        rw [getD_eq_getElem hn dTask]
        exact hz _ (List.getElem_mem hn)
      rw [focusStepTotal_no_dec tasks hm1 hc]
      apply (finishStep_label_iff tasks idx h0 h1 hname).mpr
      rw [finishStep_fst]
      have hb := finishStep_idx_bounds tasks idx h0 h1
      have hn2 : (finishStep tasks idx).2.1.toNat < tasks.length := by omega
      rw [getD_eq_getElem hn2 dTask]
      exact hz _ (List.getElem_mem hn2)

/-- C2 witness for the amended theorem. -/
theorem focus_label_completed_iff_witness :
    ∃ st, focusStep [(⟨"A", 2⟩ : Task)] (-1) = some st ∧
      (st.2.2 = "All Tasks Completed" ↔
        (st.1.getD st.2.1.toNat dTask).count = 0) := by
  obtain ⟨st, h1, h2, -⟩ := focus_label_completed_iff [⟨"A", 2⟩] (-1)
    (by decide) (Or.inl rfl) (by decide)
  exact ⟨st, h1, h2⟩

/-- C3 (confirmed): on the list `[("A",1), ("B",2)]` with the pointer
unset, the four focus entries (the 2nd, 4th, 6th and 8th advances; the
intervening advances are breaks) behave exactly as specified: first
entry shows A without decrementing, second decrements A to 0 and shows B
(count 2), third decrements B to 1 and shows B, fourth decrements B to 0,
wraps the pointer to A and shows `"All Tasks Completed"`. -/
theorem task_trace_two_tasks :
    ((advanceN { initModel with task_list := [⟨"A", 1⟩, ⟨"B", 2⟩] } 1).map
      (fun m => m.current_task) = some "Short Break") ∧
    ((advanceN { initModel with task_list := [⟨"A", 1⟩, ⟨"B", 2⟩] } 2).map
      (fun m => (m.current_task, m.task_list, m.current_task_index)) =
      some ("A", [⟨"A", 1⟩, ⟨"B", 2⟩], 0)) ∧
    ((advanceN { initModel with task_list := [⟨"A", 1⟩, ⟨"B", 2⟩] } 3).map
      (fun m => m.current_task) = some "Short Break") ∧
    ((advanceN { initModel with task_list := [⟨"A", 1⟩, ⟨"B", 2⟩] } 4).map
      (fun m => (m.current_task, m.task_list, m.current_task_index)) =
      some ("B", [⟨"A", 0⟩, ⟨"B", 2⟩], 1)) ∧
    ((advanceN { initModel with task_list := [⟨"A", 1⟩, ⟨"B", 2⟩] } 5).map
      (fun m => m.current_task) = some "Short Break") ∧
    ((advanceN { initModel with task_list := [⟨"A", 1⟩, ⟨"B", 2⟩] } 6).map
      (fun m => (m.current_task, m.task_list, m.current_task_index)) =
      some ("B", [⟨"A", 0⟩, ⟨"B", 1⟩], 1)) ∧
    ((advanceN { initModel with task_list := [⟨"A", 1⟩, ⟨"B", 2⟩] } 7).map
      (fun m => m.current_task) = some "Long Break") ∧
    ((advanceN { initModel with task_list := [⟨"A", 1⟩, ⟨"B", 2⟩] } 8).map
      (fun m => (m.current_task, m.task_list, m.current_task_index)) =
      some ("All Tasks Completed", [⟨"A", 0⟩, ⟨"B", 0⟩], 0)) := by
  decide

/-- C4 counterexample: after `select_task 0` on the list `[("A", 2)]`,
the next focus entry (the second advance; the first is a short break)
decrements the freshly selected task from 2 to 1 — the code does not
treat an explicit selection as non-decrementing. -/
theorem select_then_focus_decrements_cex :
    ((advanceN (select_task { initModel with task_list := [⟨"A", 2⟩] } 0) 1).map
      (fun m => m.current_task) = some "Short Break") ∧
    ((advanceN (select_task { initModel with task_list := [⟨"A", 2⟩] } 0) 2).map
      (fun m => (m.current_task, m.task_list)) = some ("A", [⟨"A", 1⟩])) := by
  decide

/-- C4 amended: for every valid index `k`, the first focus entry after
`selectTask(k)` decrements the selected task's count by one (when it is
non-zero); only the unset sentinel `-1` path, taken after a list load
that never ran `select_task`, is non-decrementing. -/
theorem select_then_focus_decrements (m : Model) (k : Int)
    (hk0 : 0 ≤ k) (hk1 : k < (m.task_list.length : Int))
    (hc : (m.task_list.getD k.toNat dTask).count ≠ 0) :
    ∃ st, focusStep (select_task m k).task_list
        (select_task m k).current_task_index = some st ∧
      (st.1.getD k.toNat dTask).count =
        (m.task_list.getD k.toNat dTask).count - 1 := by
  have hcond : 0 ≤ k ∧ k < (m.task_list.length : Int) := ⟨hk0, hk1⟩
  have hsel1 : (select_task m k).task_list = m.task_list := by
    unfold select_task
    rw [if_pos hcond]
    rfl
  have hsel2 : (select_task m k).current_task_index = k := by
    unfold select_task
    rw [if_pos hcond]
    rfl
  rw [hsel1, hsel2]
  have hne : m.task_list ≠ [] := by
    intro hx
    rw [hx] at hk1
    simp at hk1
    omega
  rw [focusStep_eq m.task_list k hne (Or.inr hcond)]
  refine ⟨_, rfl, ?_⟩
  rw [focusStepTotal_dec m.task_list (by omega) hc, finishStep_fst]
  have hkn : k.toNat < m.task_list.length := by omega
  rw [getD_eq_getElem (by rw [List.length_set]; exact hkn) dTask,
    List.getElem_set, if_pos rfl]

/-- C4 witness for the amended theorem. -/
theorem select_then_focus_decrements_witness :
    ∃ st, focusStep
        (select_task { initModel with task_list := [⟨"A", 2⟩] } 0).task_list
        (select_task { initModel with task_list := [⟨"A", 2⟩] } 0).current_task_index =
        some st ∧
      (st.1.getD (0 : Int).toNat dTask).count =
        (({ initModel with task_list := [⟨"A", 2⟩] } : Model).task_list.getD
          (0 : Int).toNat dTask).count - 1 :=
  select_then_focus_decrements { initModel with task_list := [⟨"A", 2⟩] } 0
    (by decide) (by decide) (by decide)

/-- C5 (confirmed): `update_timer` decrements the countdown by exactly 1
(all other fields untouched) when running with time left, so `n` ticks
with `n` below the countdown subtract exactly `n`; when running at 0 it
is exactly `get_next_state`, which advances the cycle position by 1 mod 8
and loads the new position's configured duration; when not running it is
a no-op on the model. -/
theorem tick_spec (m : Model) :
    (m.is_running = true → 0 < m.remaining_time →
      update_timer m = some { m with remaining_time := m.remaining_time - 1 }) ∧
    (m.is_running = true → ∀ n : Nat, (n : Int) < m.remaining_time →
      tickN m n = some { m with remaining_time := m.remaining_time - (n : Int) }) ∧
    (m.is_running = true → m.remaining_time = 0 →
      update_timer m = get_next_state m ∧
      ∀ m', get_next_state m = some m' →
        m'.current_state_index = (m.current_state_index + 1) % 8 ∧
        m'.remaining_time = duration_for m ((m.current_state_index + 1) % 8)) ∧
    (m.is_running = false → update_timer m = some m) := by
  refine ⟨?_, ?_, ?_, ?_⟩
  · intro hr hp
    unfold update_timer
    rw [if_pos ⟨hr, hp⟩]
  · intro hr n
    induction n with
    | zero =>
      intro _
      show some m = some { m with remaining_time := m.remaining_time - ((0 : Nat) : Int) }
      have hz : m.remaining_time - ((0 : Nat) : Int) = m.remaining_time := by
        push_cast
        ring
      rw [hz]
    | succ k ih =>
      intro h
      have hk : (k : Int) < m.remaining_time := by
        push_cast at h ⊢
        omega
      show (tickN m k).bind update_timer = _
      rw [ih hk]
      simp only [Option.some_bind]
      unfold update_timer
      have hr' : ({ m with remaining_time := m.remaining_time - (k : Int) }).is_running
          = true := hr
      have hp' : (0 : Int) <
          ({ m with remaining_time := m.remaining_time - (k : Int) }).remaining_time := by
        show (0 : Int) < m.remaining_time - (k : Int)
        push_cast at h
        omega
      rw [if_pos ⟨hr', hp'⟩]
      show some { m with remaining_time := m.remaining_time - (k : Int) - 1 } = _
      have harith : m.remaining_time - (k : Int) - 1 =
          m.remaining_time - ((k + 1 : Nat) : Int) := by
        push_cast
        ring
      rw [harith]
  · intro hr hz
    constructor
    · unfold update_timer
      rw [if_neg (fun hx => by rw [hz] at hx; exact absurd hx.2 (by norm_num)),
        if_pos ⟨hr, hz⟩]
    · intro m' hm'
      obtain ⟨h1, h2, -⟩ := get_next_state_cases hm'
      exact ⟨h1, h2⟩
  · intro hr
    unfold update_timer
    rw [if_neg (fun hx => by rw [hr] at hx; exact absurd hx.1 (by simp)),
      if_neg (fun hx => by rw [hr] at hx; exact absurd hx.1 (by simp))]

/-- C5 witness. -/
theorem tick_spec_witness :
    update_timer { initModel with is_running := true } =
      some { initModel with is_running := true, remaining_time := 1499 } ∧
    tickN { initModel with is_running := true } 3 =
      some { initModel with is_running := true, remaining_time := 1497 } ∧
    update_timer { initModel with is_running := true, remaining_time := 0 } =
      get_next_state { initModel with is_running := true, remaining_time := 0 } ∧
    update_timer initModel = some initModel := by
  refine ⟨?_, ?_, ?_, ?_⟩
  · have h := (tick_spec { initModel with is_running := true }).1 rfl (by decide)
    rw [h]
    decide
  · have h := (tick_spec { initModel with is_running := true }).2.1 rfl 3 (by decide)
    rw [h]
    decide
  · exact ((tick_spec { initModel with is_running := true, remaining_time := 0 }).2.2.1
      rfl rfl).1
  · exact (tick_spec initModel).2.2.2 rfl

/-- C6 (confirmed): the cycle template is exactly Work ("Focus"), Short
Break, Work, Short Break, Work, Short Break, Work, Long Break; it is a
constant and `get_next_state` only moves the index, advancing it by one
modulo 8, so the kinds visited over 8 consecutive advances are exactly
the 8 template slots in cyclic order, repeating with period 8. -/
theorem cycle_template_spec :
    pomodoro_cycle = ["Work", "Short Break", "Work", "Short Break",
      "Work", "Short Break", "Work", "Long Break"] ∧
    (∀ m m' : Model, get_next_state m = some m' →
      m'.current_state_index = (m.current_state_index + 1) % 8) ∧
    ((List.range 8).map (fun k => pomodoro_cycle.getD (k % 8) "") =
      ["Work", "Short Break", "Work", "Short Break",
       "Work", "Short Break", "Work", "Long Break"]) ∧
    (∀ k : Nat, pomodoro_cycle.getD ((k + 8) % 8) "" =
      pomodoro_cycle.getD (k % 8) "") := by
  refine ⟨rfl, ?_, by decide, ?_⟩
  · intro m m' h
    exact (get_next_state_cases h).1
  · intro k
    rw [Nat.add_mod_right]

/-- C6 witness. -/
theorem cycle_template_spec_witness :
    ({ initModel with
        current_state_index := 1, remaining_time := 300,
        current_task := "Short Break" } : Model).current_state_index =
      (initModel.current_state_index + 1) % 8 :=
  cycle_template_spec.2.1 initModel _ (by decide)

/-- C7 counterexample: a row with an empty name but a digit count is
accepted by the CSV load — the file is not rejected and the task list is
replaced — so the empty-name clause of the claim fails on the code. -/
theorem load_empty_name_accepted_cex :
    (load_from_csv initModel [["Task Name", "Pomodoros"], ["", "3"]]).task_list =
      [⟨"", 3⟩] ∧
    initModel.task_list = [] := by
  decide

/-- C7 amended: loading is all-or-nothing with respect to the checks the
code actually performs: if any body row does not have exactly two cells
or has a count that is not a digit string (missing, non-numeric or
negative), the whole file is rejected and the model is left exactly as
before; on success the task list is replaced by exactly the parsed rows.
A row with an empty name and a valid count is accepted, not rejected. -/
theorem load_all_or_nothing (m : Model) (hd : List String)
    (body : List (List String)) :
    ((∃ r ∈ body, parseRow r = none) → load_from_csv m (hd :: body) = m) ∧
    (∀ ts, parseRows body = some ts →
      (load_from_csv m (hd :: body)).task_list = ts) := by
  constructor
  · rintro ⟨r, hr, hbad⟩
    unfold load_from_csv
    rw [load_cons_eq, parseRows_eq_none hr hbad]
    rfl
  · intro ts hts
    unfold load_from_csv
    rw [load_cons_eq, hts]
    show (start (if ts.isEmpty then reset_pomodoro { m with task_list := ts }
      else select_task { m with task_list := ts } 0)).task_list = ts
    by_cases hE : ts.isEmpty
    · rw [if_pos hE]
      rfl
    · rw [if_neg hE]
      unfold select_task
      split
      · rfl
      · rfl

/-- C7 witness for the amended theorem. -/
theorem load_all_or_nothing_witness :
    load_from_csv initModel [["Task Name", "Pomodoros"], ["A", "x"]] = initModel ∧
    (load_from_csv initModel [["Task Name", "Pomodoros"], ["A", "3"]]).task_list =
      [⟨"A", 3⟩] :=
  ⟨(load_all_or_nothing initModel ["Task Name", "Pomodoros"] [["A", "x"]]).1
      ⟨["A", "x"], by decide, by decide⟩,
    (load_all_or_nothing initModel ["Task Name", "Pomodoros"] [["A", "3"]]).2
      [⟨"A", 3⟩] (by decide)⟩

/-- C8 (confirmed): persistence round-trips. For durations that are whole
numbers of minutes — an invariant of the program, since the defaults, the
settings dialog and the config loader only ever store 60 times an integer
— saving the config record (floor-dividing by 60) and loading it back
(multiplying by 60) reproduces identical durations; and a task list whose
counts are non-negative (as any loaded list is) saves to rows that load
back to an identical, identically-ordered task list. -/
theorem persistence_round_trip (m m2 m3 : Model) (ts : List Task)
    (hw : (60 : Int) ∣ m.work_duration)
    (hsd : (60 : Int) ∣ m.short_break_duration)
    (hl : (60 : Int) ∣ m.long_break_duration)
    (hts : ∀ t ∈ ts, 0 ≤ t.count) :
    (load_config m2 (save_config m)).work_duration = m.work_duration ∧
    (load_config m2 (save_config m)).short_break_duration =
      m.short_break_duration ∧
    (load_config m2 (save_config m)).long_break_duration =
      m.long_break_duration ∧
    ∃ m', load_from_existing_csv m3 (save_tasks_file ts) = some m' ∧
      m'.task_list = ts := by
  have hfd : ∀ a : Int, (60 : Int) ∣ a → a.fdiv 60 * 60 = a := by
    intro a ha
    obtain ⟨k, rfl⟩ := ha
    rw [Int.mul_fdiv_cancel_left _ (by norm_num)]
    ring
  unfold load_config save_config
  rw [pyInt_pyStr, pyInt_pyStr, pyInt_pyStr]
  refine ⟨hfd _ hw, hfd _ hsd, hfd _ hl, ?_⟩
  unfold save_tasks_file
  rw [load_cons_eq, parseRows_save ts hts]
  show ∃ m', some (start (if ts.isEmpty then reset_pomodoro { m3 with task_list := ts }
    else select_task { m3 with task_list := ts } 0)) = some m' ∧ m'.task_list = ts
  refine ⟨_, rfl, ?_⟩
  show (start (if ts.isEmpty then reset_pomodoro { m3 with task_list := ts }
    else select_task { m3 with task_list := ts } 0)).task_list = ts
  by_cases hE : ts.isEmpty
  · rw [if_pos hE]
    rfl
  · rw [if_neg hE]
    unfold select_task
    split
    · rfl
    · rfl

/-- C8 witness. -/
theorem persistence_round_trip_witness :
    (load_config initModel (save_config initModel)).work_duration =
      initModel.work_duration ∧
    ∃ m', load_from_existing_csv initModel (save_tasks_file [⟨"A", 2⟩]) =
        some m' ∧ m'.task_list = [⟨"A", 2⟩] := by
  have h := persistence_round_trip initModel initModel initModel [⟨"A", 2⟩]
    (by decide) (by decide) (by decide) (by decide)
  exact ⟨h.1, h.2.2.2⟩

/-- C9 counterexample: task-list replacement does not preserve the
claimed invariant. Loading a CSV consisting of only the header row
replaces the list by an empty one and leaves a previously set pointer
set; and `save_to_csv` replaces the list before the file dialog, so a
cancelled dialog skips the out-of-range repair and a pointer at 2 is
left dangling over the new single-task list. -/
theorem invariant_replace_cex :
    (Inv { initModel with task_list := [⟨"A", 1⟩], current_task_index := 0 } ∧
      ¬ Inv (load_from_csv
        { initModel with task_list := [⟨"A", 1⟩], current_task_index := 0 }
        [["Task Name", "Pomodoros"]])) ∧
    (Inv { initModel with task_list := [⟨"A", 1⟩, ⟨"B", 1⟩, ⟨"C", 1⟩], current_task_index := 2 } ∧
      save_to_csv
        { initModel with task_list := [⟨"A", 1⟩, ⟨"B", 1⟩, ⟨"C", 1⟩], current_task_index := 2 }
        [["X", "1"], ["", ""]] false true =
        some { initModel with task_list := [⟨"X", 1⟩], current_task_index := 2 } ∧
      ¬ Inv { initModel with task_list := [⟨"X", 1⟩], current_task_index := 2 }) := by
  decide

/-- C9 amended: the pointer-validity invariant is preserved by focus
entries (`get_next_state`), by `select_task` and by `reset_pomodoro`.
Task-list replacement keeps it only conditionally: a CSV load
establishes it whenever the new list is non-empty (the load then selects
index 0), and `save_to_csv` preserves it when the dialog returns a path
and the write succeeds onto a non-empty list (an out-of-range pointer is
repaired to 0). Replacement by an empty list, and a save whose dialog is
cancelled or whose write fails, can leave a stale set pointer behind
(see the counterexample). -/
theorem invariant_preservation :
    (∀ m m' : Model, Inv m → get_next_state m = some m' → Inv m') ∧
    (∀ (m : Model) (k : Int), Inv m → Inv (select_task m k)) ∧
    (∀ m : Model, Inv m → Inv (reset_pomodoro m)) ∧
    (∀ (m m' : Model) (file : List (List String)),
      load_from_existing_csv m file = some m' → m'.task_list ≠ [] →
        Inv m') ∧
    (∀ (m m' : Model) (grid : List (List String)),
      Inv m → save_to_csv m grid true true = some m' → m'.task_list ≠ [] →
        Inv m') := by
  refine ⟨fun m m' hI h => Inv_get_next_state hI h,
    fun m k hI => Inv_select m k hI,
    fun m hI => Inv_reset m hI, ?_, ?_⟩
  · intro m m' file h hne
    match file with
    | [] => exact absurd h (by simp [load_from_existing_csv])
    | hd :: body =>
      rw [load_cons_eq] at h
      cases hts : parseRows body with
      | none =>
        rw [hts] at h
        exact absurd h (by simp)
      | some ts =>
        rw [hts] at h
        have h' : some (start (if ts.isEmpty then reset_pomodoro { m with task_list := ts }
          else select_task { m with task_list := ts } 0)) = some m' := h
        injection h' with h'
        subst h'
        by_cases hE : ts.isEmpty
        · exfalso
          apply hne
          rw [if_pos hE]
          have hts0 : ts = [] := by simpa using hE
          exact hts0
        · rw [if_neg hE]
          have hne' : ts ≠ [] := by simpa using hE
          have hlen : 0 < ts.length := List.length_pos.mpr hne'
          have hcond : (0 : Int) ≤ 0 ∧ (0 : Int) <
              ((({ m with task_list := ts } : Model).task_list.length : Nat) : Int) := by
            refine ⟨le_rfl, ?_⟩
            show (0 : Int) < ((ts.length : Nat) : Int)
            exact_mod_cast hlen
          unfold select_task
          rw [if_pos hcond]
          intro _
          exact hcond
  · intro m m' grid hI h hne
    cases hcr : collectRows grid with
    | none =>
      unfold save_to_csv at h
      rw [hcr] at h
      exact absurd h (by simp)
    | some tasks =>
      unfold save_to_csv at h
      rw [hcr] at h
      have h2 : (if tasks.isEmpty then some { m with task_list := tasks }
          else some (start (if (tasks.length : Int) ≤ m.current_task_index then
            select_task { m with task_list := tasks } 0
            else { m with task_list := tasks }))) = some m' := h
      by_cases hE : tasks.isEmpty
      · rw [if_pos hE] at h2
        injection h2 with h2
        subst h2
        exact absurd (show ({ m with task_list := tasks } : Model).task_list = []
          from by simpa using hE) hne
      · rw [if_neg hE] at h2
        injection h2 with h2
        subst h2
        have hne' : tasks ≠ [] := by simpa using hE
        have hlen : 0 < tasks.length := List.length_pos.mpr hne'
        by_cases hrep : (tasks.length : Int) ≤ m.current_task_index
        · rw [if_pos hrep]
          have hcond : (0 : Int) ≤ 0 ∧ (0 : Int) <
              ((({ m with task_list := tasks } : Model).task_list.length : Nat) : Int) := by
            refine ⟨le_rfl, ?_⟩
            show (0 : Int) < ((tasks.length : Nat) : Int)
            exact_mod_cast hlen
          unfold select_task
          rw [if_pos hcond]
          intro _
          exact hcond
        · rw [if_neg hrep]
          intro hset
          have h3 := hI hset
          refine ⟨h3.1, ?_⟩
          show m.current_task_index < ((tasks.length : Nat) : Int)
          omega

/-- C9 witness for the amended theorem. -/
theorem invariant_preservation_witness :
    Inv (select_task
      { initModel with task_list := [⟨"A", 1⟩], current_task_index := 0 } 0) :=
  invariant_preservation.2.1
    { initModel with task_list := [⟨"A", 1⟩], current_task_index := 0 } 0
    (by decide)

/-- C10 (confirmed): with a non-empty task list and a valid pointer,
`reset_pomodoro` sets the label to the name of the task at the pointer —
with no condition on its count, so also when the count is 0 — and changes
neither the pointer nor the list; the label is that task's name, never
the completed label or a break label. -/
theorem reset_label_spec (m : Model) (hne : m.task_list ≠ [])
    (h0 : 0 ≤ m.current_task_index)
    (h1 : m.current_task_index < (m.task_list.length : Int)) :
    (reset_pomodoro m).current_task =
      (m.task_list.getD m.current_task_index.toNat dTask).name ∧
    (reset_pomodoro m).current_task_index = m.current_task_index ∧
    (reset_pomodoro m).task_list = m.task_list := by
  refine ⟨?_, rfl, rfl⟩
  show (if m.task_list ≠ [] ∧ 0 ≤ m.current_task_index ∧
      m.current_task_index < (m.task_list.length : Int) then
    (m.task_list.getD m.current_task_index.toNat dTask).name
    else "No Task Selected") = (m.task_list.getD m.current_task_index.toNat dTask).name
  rw [if_pos ⟨hne, h0, h1⟩]

/-- C10 witness: a task whose count is already 0 is still re-displayed by
reset. -/
theorem reset_label_spec_witness :
    (reset_pomodoro { initModel with task_list := [⟨"A", 0⟩], current_task_index := 0 }).current_task = "A" ∧
    (reset_pomodoro { initModel with task_list := [⟨"A", 0⟩], current_task_index := 0 }).current_task_index = 0 := by
  have h := reset_label_spec
    { initModel with task_list := [⟨"A", 0⟩], current_task_index := 0 }
    (by decide) (by decide) (by decide)
  constructor
  · rw [h.1]
    decide
  · rw [h.2.1]

end Pompompom
